import Mathlib

/-!
Verification of the model-tree core (`src/modeltrees/_nodes.py`).

The source holds two classes:

* `Split` — a single-feature threshold rule.  `Split._apply_split(X, y=None)`
  computes the boolean mask `X[:, split_feature] <= split_threshold` and
  returns the rows where the mask is true (child 0, "left") and the rows
  where it is false (child 1, "right"); when `y` is given, the same mask is
  applied to `y` and the result is a pair of (features, target) pairs.

* `TreeNode` — a plain record of `depth`, `estimator`, `children`, `split`;
  the constructor stores the four arguments verbatim.

The embedding models a feature matrix as a `List (List Int)` of rows, with
the column count `m` (numpy's `n_features`) passed explicitly, and a target
vector as a `List Int`.  numpy behaviour that matters here is made explicit:

* `X[:, f]` accepts `-m ≤ f < m`, a negative `f` meaning column `m + f`,
  and raises `IndexError` otherwise — modelled by `resolveCol` returning
  `Option Nat`, with `none` standing for the raised exception;
* boolean-mask row selection `X[mask, :]` keeps the masked rows in input
  order — modelled by `maskSelect`;
* `y[mask]` requires `len(y) == len(mask)` and raises otherwise — modelled
  by a length guard in `Split.applySplitY`.
-/

namespace ModelTrees

/-- A splitting rule, as built by `Split.__init__`: the index of the feature
column used for the split and the comparison threshold. -/
structure Split where
  split_feature : Int
  split_threshold : Int
deriving Repr, DecidableEq

/-- numpy column-index resolution for `X[:, f]` on a matrix with `m` columns:
an index `f` with `0 ≤ f < m` is used as is, an index with `-m ≤ f < 0`
selects column `m + f`, and anything else raises `IndexError` (`none`). -/
def resolveCol (f : Int) (m : Nat) : Option Nat :=
  if 0 ≤ f ∧ f < (m : Int) then some f.toNat
  else if -(m : Int) ≤ f ∧ f < 0 then some ((m : Int) + f).toNat
  else none

/-- Boolean-mask row selection, numpy's `xs[mask]`: keep the entries of `xs`
whose mask bit is `true`, in their input order. -/
def maskSelect {α : Type} : List Bool → List α → List α
  | true :: bs, x :: xs => x :: maskSelect bs xs
  | false :: bs, _ :: xs => maskSelect bs xs
  | _, _ => []

/-- Elementwise negation of a boolean mask, numpy's `~mask`. -/
def negMask (mask : List Bool) : List Bool := mask.map (fun b => !b)

/-- The row predicate of a split once the feature column `j` is resolved:
`row[j] <= split_threshold` (line 109 of the source). -/
def Split.rowLE (s : Split) (j : Nat) (row : List Int) : Bool :=
  decide (row.getD j 0 ≤ s.split_threshold)

/-- The mask `split_filter = X[:, split_feature] <= split_threshold` of
line 109, or `none` when the column index is out of bounds. -/
def splitMask (s : Split) (m : Nat) (X : List (List Int)) : Option (List Bool) :=
  (resolveCol s.split_feature m).map (fun j => X.map (s.rowLE j))

/-- The features-only form of `Split._apply_split` (the `y is None` branch,
line 113): `[X[split_filter, :], X[~split_filter, :]]`.  `none` models the
`IndexError` raised when `split_feature` is out of bounds for `m` columns. -/
def Split.applySplit (s : Split) (m : Nat) (X : List (List Int)) :
    Option (List (List Int) × List (List Int)) :=
  (splitMask s m X).map (fun mask => (maskSelect mask X, maskSelect (negMask mask) X))

/-- The features-plus-target form of `Split._apply_split` (lines 115–118):
`[(X[split_filter, :], y[split_filter]), (X[~split_filter, :], y[~split_filter])]`.
`none` models the `IndexError` raised either for an out-of-bounds
`split_feature` or for a boolean mask whose length differs from `len(y)`. -/
def Split.applySplitY (s : Split) (m : Nat) (X : List (List Int)) (y : List Int) :
    Option ((List (List Int) × List Int) × (List (List Int) × List Int)) :=
  match splitMask s m X with
  | none => none
  | some mask =>
      if y.length = mask.length then
        some ((maskSelect mask X, maskSelect mask y),
              (maskSelect (negMask mask) X, maskSelect (negMask mask) y))
      else none

/-- A node of the model tree, as built by `TreeNode.__init__`: the
constructor stores `depth`, `estimator`, `children` and `split` verbatim,
with no validation of the shape of `children`.  The estimator is opaque to
the core and is modelled as an optional reference id. -/
inductive TreeNode where
  | mk (depth : Int) (estimator : Option Nat) (children : Option (List TreeNode))
      (split : Option Split)

/-- Read the `children` attribute of a node. -/
def TreeNode.children : TreeNode → Option (List TreeNode)
  | .mk _ _ c _ => c

/-- Read the `depth` attribute of a node. -/
def TreeNode.depth : TreeNode → Int
  | .mk d _ _ _ => d

/-- Read the `estimator` attribute of a node. -/
def TreeNode.estimator : TreeNode → Option Nat
  | .mk _ e _ _ => e

/-- Read the `split` attribute of a node. -/
def TreeNode.splitOf : TreeNode → Option Split
  | .mk _ _ _ s => s

/-! Basic facts about the mask primitives. -/

@[simp]
theorem maskSelect_nil_mask {α : Type} (xs : List α) : maskSelect [] xs = [] := by
  cases xs <;> rfl

@[simp]
theorem maskSelect_nil {α : Type} (bs : List Bool) : maskSelect bs ([] : List α) = [] := by
  cases bs with
  | nil => rfl
  | cons b bs => cases b <;> rfl

@[simp]
theorem maskSelect_cons_true {α : Type} (bs : List Bool) (x : α) (xs : List α) :
    maskSelect (true :: bs) (x :: xs) = x :: maskSelect bs xs := rfl

@[simp]
theorem maskSelect_cons_false {α : Type} (bs : List Bool) (x : α) (xs : List α) :
    maskSelect (false :: bs) (x :: xs) = maskSelect bs xs := rfl

@[simp]
theorem negMask_nil : negMask [] = [] := rfl

@[simp]
theorem negMask_cons (b : Bool) (bs : List Bool) : negMask (b :: bs) = (!b) :: negMask bs := rfl

theorem maskSelect_length_add {α : Type} (bs : List Bool) (xs : List α)
    (h : bs.length = xs.length) :
    (maskSelect bs xs).length + (maskSelect (negMask bs) xs).length = xs.length := by
  induction bs generalizing xs with
  | nil =>
    cases xs with
    | nil => simp
    | cons x xs => simp at h
  | cons b bs ih =>
    cases xs with
    | nil => simp at h
    | cons x xs =>
      simp only [List.length_cons, Nat.succ_inj'] at h
      cases b with
      | true =>
        have := ih xs h
        simp only [maskSelect_cons_true, negMask_cons, Bool.not_true, maskSelect_cons_false,
          List.length_cons]
        omega
      | false =>
        have := ih xs h
        simp only [maskSelect_cons_false, negMask_cons, Bool.not_false, maskSelect_cons_true,
          List.length_cons]
        omega

theorem maskSelect_append_perm {α : Type} (bs : List Bool) (xs : List α)
    (h : bs.length = xs.length) :
    (maskSelect bs xs ++ maskSelect (negMask bs) xs).Perm xs := by
  induction bs generalizing xs with
  | nil =>
    cases xs with
    | nil => simp
    | cons x xs => simp at h
  | cons b bs ih =>
    cases xs with
    | nil => simp at h
    | cons x xs =>
      simp only [List.length_cons, Nat.succ_inj'] at h
      cases b with
      | true =>
        simpa using (ih xs h).cons x
      | false =>
        simp only [maskSelect_cons_false, negMask_cons, Bool.not_false, maskSelect_cons_true]
        exact List.perm_middle.trans ((ih xs h).cons x)

theorem maskSelect_map_self {α : Type} (p : α → Bool) (xs : List α) :
    maskSelect (xs.map p) xs = xs.filter p := by
  induction xs with
  | nil => rfl
  | cons x xs ih =>
    cases hp : p x <;> simp [List.filter_cons, hp, ih]

theorem negMask_map {α : Type} (p : α → Bool) (xs : List α) :
    negMask (xs.map p) = xs.map (fun x => !p x) := by
  simp [negMask, List.map_map, Function.comp]

theorem maskSelect_sublist {α : Type} (bs : List Bool) (xs : List α) :
    (maskSelect bs xs).Sublist xs := by
  induction bs generalizing xs with
  | nil => simp
  | cons b bs ih =>
    cases xs with
    | nil => simp
    | cons x xs =>
      cases b with
      | true => exact (ih xs).cons₂ x
      | false => exact (ih xs).cons x

theorem maskSelect_zip {α β : Type} (bs : List Bool) (xs : List α) (ys : List β)
    (h : xs.length = ys.length) :
    maskSelect bs (xs.zip ys) = (maskSelect bs xs).zip (maskSelect bs ys) := by
  induction bs generalizing xs ys with
  | nil => simp
  | cons b bs ih =>
    cases xs with
    | nil =>
      cases ys with
      | nil => simp
      | cons y ys => simp at h
    | cons x xs =>
      cases ys with
      | nil => simp at h
      | cons y ys =>
        simp only [List.length_cons, Nat.succ_inj'] at h
        cases b with
        | true => simp [List.zip_cons_cons, ih xs ys h]
        | false => simp [List.zip_cons_cons, ih xs ys h]

theorem maskSelect_length_congr {α β : Type} (bs : List Bool) (xs : List α) (ys : List β)
    (h : xs.length = ys.length) :
    (maskSelect bs xs).length = (maskSelect bs ys).length := by
  induction bs generalizing xs ys with
  | nil => simp
  | cons b bs ih =>
    cases xs with
    | nil =>
      cases ys with
      | nil => simp
      | cons y ys => simp at h
    | cons x xs =>
      cases ys with
      | nil => simp at h
      | cons y ys =>
        simp only [List.length_cons, Nat.succ_inj'] at h
        cases b with
        | true => simpa using ih xs ys h
        | false => simpa using ih xs ys h

/-! Facts about numpy column-index resolution. -/

theorem resolveCol_eq_none_iff (f : Int) (m : Nat) :
    resolveCol f m = none ↔ ((m : Int) ≤ f ∨ f < -(m : Int)) := by
  unfold resolveCol
  split_ifs with h1 h2 <;> simp <;> omega

theorem resolveCol_of_neg (f : Int) (m : Nat) (h1 : -(m : Int) ≤ f) (h2 : f < 0) :
    resolveCol f m = some ((m : Int) + f).toNat := by
  unfold resolveCol
  split_ifs with ha hb
  · omega
  · rfl
  · omega

theorem resolveCol_shift (f : Int) (m : Nat) (h1 : -(m : Int) ≤ f) (h2 : f < 0) :
    resolveCol ((m : Int) + f) m = resolveCol f m := by
  rw [resolveCol_of_neg f m h1 h2]
  unfold resolveCol
  split_ifs with ha hb
  · rfl
  · omega
  · omega

theorem resolveCol_isSome (f : Int) (m : Nat)
    (h1 : -(m : Int) ≤ f) (h2 : f < (m : Int)) :
    ∃ j, resolveCol f m = some j := by
  unfold resolveCol
  split_ifs with ha hb
  · exact ⟨_, rfl⟩
  · exact ⟨_, rfl⟩
  · omega

/-! Unpacking a successful call of the split operation. -/

theorem applySplit_eq_some {s : Split} {m : Nat} {X l r : List (List Int)}
    (h : s.applySplit m X = some (l, r)) :
    ∃ j, resolveCol s.split_feature m = some j ∧
      l = maskSelect (X.map (s.rowLE j)) X ∧
      r = maskSelect (negMask (X.map (s.rowLE j))) X := by
  unfold Split.applySplit splitMask at h
  cases hr : resolveCol s.split_feature m with
  | none => rw [hr] at h; simp at h
  | some j =>
    rw [hr] at h
    simp only [Option.map_some', Option.some.injEq, Prod.mk.injEq] at h
    exact ⟨j, rfl, h.1.symm, h.2.symm⟩

theorem applySplitY_eq_some {s : Split} {m : Nat} {X lx rx : List (List Int)}
    {y ly ry : List Int}
    (h : s.applySplitY m X y = some ((lx, ly), (rx, ry))) :
    ∃ j, resolveCol s.split_feature m = some j ∧ y.length = X.length ∧
      lx = maskSelect (X.map (s.rowLE j)) X ∧
      ly = maskSelect (X.map (s.rowLE j)) y ∧
      rx = maskSelect (negMask (X.map (s.rowLE j))) X ∧
      ry = maskSelect (negMask (X.map (s.rowLE j))) y := by
  unfold Split.applySplitY splitMask at h
  cases hr : resolveCol s.split_feature m with
  | none => rw [hr] at h; simp at h
  | some j =>
    rw [hr] at h
    simp only [Option.map_some'] at h
    split_ifs at h with hlen
    · simp only [Option.some.injEq, Prod.mk.injEq] at h
      refine ⟨j, rfl, by simpa using hlen, ?_, ?_, ?_, ?_⟩
      · exact h.1.1.symm
      · exact h.1.2.symm
      · exact h.2.1.symm
      · exact h.2.2.symm

theorem applySplit_eq_none_iff (s : Split) (m : Nat) (X : List (List Int)) :
    s.applySplit m X = none ↔ resolveCol s.split_feature m = none := by
  unfold Split.applySplit splitMask
  cases hr : resolveCol s.split_feature m <;> simp

/-! Claim theorems. -/

/-- C1: for every feature matrix `X` with `n` rows and every `Split`,
`apply_split` returns exactly two subsets whose row counts sum to `n`, both
when `y` is absent and when `y` is present, and every input row appears in
exactly one of the two outputs (the concatenation of the two output subsets
is a permutation of the input, so each row is used exactly once, counted
with multiplicity). -/
theorem applySplit_partition_complete
    (s : Split) (m : Nat) (X l r lx rx : List (List Int)) (y ly ry : List Int)
    (h : s.applySplit m X = some (l, r))
    (hy : s.applySplitY m X y = some ((lx, ly), (rx, ry))) :
    l.length + r.length = X.length ∧ (l ++ r).Perm X ∧
    lx.length + rx.length = X.length ∧ (lx ++ rx).Perm X ∧
    ly.length + ry.length = y.length ∧ (ly ++ ry).Perm y := by
  obtain ⟨j, hj, hl, hr⟩ := applySplit_eq_some h
  obtain ⟨j', hj', hylen, hlx, hly, hrx, hry⟩ := applySplitY_eq_some hy
  rw [hj] at hj'
  obtain rfl := Option.some.inj hj'
  have hmX : (X.map (s.rowLE j)).length = X.length := List.length_map _ _
  have hmy : (X.map (s.rowLE j)).length = y.length := by rw [List.length_map, hylen]
  subst hl hr hlx hly hrx hry
  exact ⟨maskSelect_length_add _ _ hmX, maskSelect_append_perm _ _ hmX,
    maskSelect_length_add _ _ hmX, maskSelect_append_perm _ _ hmX,
    maskSelect_length_add _ _ hmy, maskSelect_append_perm _ _ hmy⟩

/-- Witness for C1 at `Split(0, 5)`, `X = [[3],[5],[7]]`, `y = [10,20,30]`. -/
theorem applySplit_partition_complete_witness :
    ([[3],[5]] : List (List Int)).length + ([[7]] : List (List Int)).length
        = ([[3],[5],[7]] : List (List Int)).length ∧
    (([[3],[5]] : List (List Int)) ++ [[7]]).Perm [[3],[5],[7]] ∧
    ([[3],[5]] : List (List Int)).length + ([[7]] : List (List Int)).length
        = ([[3],[5],[7]] : List (List Int)).length ∧
    (([[3],[5]] : List (List Int)) ++ [[7]]).Perm [[3],[5],[7]] ∧
    ([10,20] : List Int).length + ([30] : List Int).length = ([10,20,30] : List Int).length ∧
    (([10,20] : List Int) ++ [30]).Perm [10,20,30] :=
  applySplit_partition_complete ⟨0, 5⟩ 1 [[3],[5],[7]] [[3],[5]] [[7]] [[3],[5]] [[7]]
    [10,20,30] [10,20] [30] (by decide) (by decide)

/-- C2: every row whose value in the split column is exactly the threshold is
placed in the left (child 0) subset and never in the right subset, in both
the features-only and the features-plus-target forms. -/
theorem applySplit_threshold_tie_left
    (s : Split) (m j : Nat) (X l r lx rx : List (List Int)) (y ly ry : List Int)
    (row : List Int)
    (hj : resolveCol s.split_feature m = some j)
    (hrow : row ∈ X) (hval : row.getD j 0 = s.split_threshold)
    (h : s.applySplit m X = some (l, r))
    (hy : s.applySplitY m X y = some ((lx, ly), (rx, ry))) :
    (row ∈ l ∧ row ∉ r) ∧ (row ∈ lx ∧ row ∉ rx) := by
  obtain ⟨j1, hj1, hl, hr⟩ := applySplit_eq_some h
  rw [hj] at hj1
  obtain rfl := Option.some.inj hj1
  obtain ⟨j2, hj2, hylen, hlx, hly, hrx, hry⟩ := applySplitY_eq_some hy
  rw [hj] at hj2
  obtain rfl := Option.some.inj hj2
  have hp : s.rowLE j row = true := by
    unfold Split.rowLE
    rw [hval]
    simp
  subst hl hr hlx hrx
  rw [maskSelect_map_self, negMask_map, maskSelect_map_self]
  refine ⟨⟨List.mem_filter.mpr ⟨hrow, hp⟩, ?_⟩, List.mem_filter.mpr ⟨hrow, hp⟩, ?_⟩ <;>
  · intro hmem
    have := (List.mem_filter.mp hmem).2
    rw [hp] at this
    simp at this

/-- Witness for C2 at `Split(0, 5)`, `X = [[3],[5],[7]]`, `row = [5]`. -/
theorem applySplit_threshold_tie_left_witness :
    (([5] : List Int) ∈ ([[3],[5]] : List (List Int)) ∧
      ([5] : List Int) ∉ ([[7]] : List (List Int))) ∧
    (([5] : List Int) ∈ ([[3],[5]] : List (List Int)) ∧
      ([5] : List Int) ∉ ([[7]] : List (List Int))) :=
  applySplit_threshold_tie_left ⟨0, 5⟩ 1 0 [[3],[5],[7]] [[3],[5]] [[7]] [[3],[5]] [[7]]
    [10,20,30] [10,20] [30] [5] (by decide) (by decide) (by decide) (by decide) (by decide)

/-- C3: `apply_split` is a stable partition: each output subset is a sublist
of the input (relative row order preserved), and when `y` is supplied the
target subsets have the same length as the matching feature subsets and zip
with them into a sublist of `X.zip y` (the i-th target of a subset is the
target of the i-th feature row of that subset). -/
theorem applySplit_stable_aligned
    (s : Split) (m : Nat) (X l r lx rx : List (List Int)) (y ly ry : List Int)
    (h : s.applySplit m X = some (l, r))
    (hy : s.applySplitY m X y = some ((lx, ly), (rx, ry))) :
    l.Sublist X ∧ r.Sublist X ∧ lx.Sublist X ∧ rx.Sublist X ∧
    lx.length = ly.length ∧ rx.length = ry.length ∧
    (lx.zip ly).Sublist (X.zip y) ∧ (rx.zip ry).Sublist (X.zip y) := by
  obtain ⟨j, hj, hl, hr⟩ := applySplit_eq_some h
  obtain ⟨j', hj', hylen, hlx, hly, hrx, hry⟩ := applySplitY_eq_some hy
  rw [hj] at hj'
  obtain rfl := Option.some.inj hj'
  subst hl hr hlx hly hrx hry
  refine ⟨maskSelect_sublist _ _, maskSelect_sublist _ _, maskSelect_sublist _ _,
    maskSelect_sublist _ _,
    maskSelect_length_congr _ _ _ hylen.symm, maskSelect_length_congr _ _ _ hylen.symm,
    ?_, ?_⟩ <;>
  · rw [← maskSelect_zip _ _ _ hylen.symm]
    exact maskSelect_sublist _ _

/-- Witness for C3 at `Split(0, 5)`, `X = [[3],[5],[7]]`, `y = [10,20,30]`. -/
theorem applySplit_stable_aligned_witness :
    ([[3],[5]] : List (List Int)).Sublist [[3],[5],[7]] ∧
    ([[7]] : List (List Int)).Sublist [[3],[5],[7]] ∧
    ([[3],[5]] : List (List Int)).Sublist [[3],[5],[7]] ∧
    ([[7]] : List (List Int)).Sublist [[3],[5],[7]] ∧
    ([[3],[5]] : List (List Int)).length = ([10,20] : List Int).length ∧
    ([[7]] : List (List Int)).length = ([30] : List Int).length ∧
    (([[3],[5]] : List (List Int)).zip ([10,20] : List Int)).Sublist
      (([[3],[5],[7]] : List (List Int)).zip ([10,20,30] : List Int)) ∧
    (([[7]] : List (List Int)).zip ([30] : List Int)).Sublist
      (([[3],[5],[7]] : List (List Int)).zip ([10,20,30] : List Int)) :=
  applySplit_stable_aligned ⟨0, 5⟩ 1 [[3],[5],[7]] [[3],[5]] [[7]] [[3],[5]] [[7]]
    [10,20,30] [10,20] [30] (by decide) (by decide)

/-- C4: `Split(split_feature=0, split_threshold=5)` applied to
`X = [[3],[5],[7]]` with no `y` returns left `[[3],[5]]` and right `[[7]]`;
with `y = [10,20,30]` it returns `([[3],[5]], [10,20])` and `([[7]], [30])`. -/
theorem applySplit_end_to_end_example :
    Split.applySplit ⟨0, 5⟩ 1 [[3],[5],[7]] = some ([[3],[5]], [[7]]) ∧
    Split.applySplitY ⟨0, 5⟩ 1 [[3],[5],[7]] [10,20,30]
      = some (([[3],[5]], [10,20]), ([[7]], [30])) := by
  constructor <;> decide

/-- C5: re-splitting is idempotent on the left output: applying the same
split to the left subset returns that whole subset as the new left output
and an empty right output. -/
theorem applySplit_left_idempotent
    (s : Split) (m : Nat) (X l r : List (List Int))
    (h : s.applySplit m X = some (l, r)) :
    s.applySplit m l = some (l, []) := by
  obtain ⟨j, hj, hl, hr⟩ := applySplit_eq_some h
  have hall : ∀ row ∈ l, s.rowLE j row = true := by
    subst hl
    intro row hrow
    rw [maskSelect_map_self] at hrow
    exact (List.mem_filter.mp hrow).2
  unfold Split.applySplit splitMask
  rw [hj]
  simp only [Option.map_some', Option.some.injEq, Prod.mk.injEq]
  constructor
  · rw [maskSelect_map_self]
    exact List.filter_eq_self.mpr hall
  · rw [negMask_map, maskSelect_map_self]
    apply List.filter_eq_nil_iff.mpr
    intro a ha
    simp [hall a ha]

/-- Witness for C5 at `Split(0, 5)`, `X = [[3],[5],[7]]`. -/
theorem applySplit_left_idempotent_witness :
    Split.applySplit ⟨0, 5⟩ 1 [[3],[5]] = some ([[3],[5]], []) :=
  applySplit_left_idempotent ⟨0, 5⟩ 1 [[3],[5],[7]] [[3],[5]] [[7]] (by decide)

/-- C6: for every `Split` whose `split_feature` is a valid column index,
`apply_split` on an input with zero rows raises no error and returns two
empty subsets, also when an empty `y` is supplied. -/
theorem applySplit_empty_input
    (s : Split) (m : Nat)
    (h1 : -(m : Int) ≤ s.split_feature) (h2 : s.split_feature < (m : Int)) :
    s.applySplit m [] = some ([], []) ∧
    s.applySplitY m [] [] = some (([], []), ([], [])) := by
  obtain ⟨j, hj⟩ := resolveCol_isSome _ m h1 h2
  unfold Split.applySplit Split.applySplitY splitMask
  rw [hj]
  simp

/-- Witness for C6 at `Split(0, 5)` on a one-column empty matrix. -/
theorem applySplit_empty_input_witness :
    Split.applySplit ⟨0, 5⟩ 1 [] = some ([], []) ∧
    Split.applySplitY ⟨0, 5⟩ 1 [] [] = some (([], []), ([], [])) :=
  applySplit_empty_input ⟨0, 5⟩ 1 (by decide) (by decide)

/-- C7: `apply_split` signals an error to its caller (modelled by `none`,
with no fallback value) whenever `split_feature` is out of bounds for the
`m` columns of `X`, and the target form also errors whenever the row count
of `y` differs from the row count of `X`; it never returns a partition in
these cases. -/
theorem applySplit_contract_violation
    (s : Split) (m : Nat) (X : List (List Int)) (y : List Int) :
    (((m : Int) ≤ s.split_feature ∨ s.split_feature < -(m : Int)) →
      s.applySplit m X = none ∧ s.applySplitY m X y = none) ∧
    (y.length ≠ X.length → s.applySplitY m X y = none) := by
  constructor
  · intro hout
    have hn : resolveCol s.split_feature m = none := (resolveCol_eq_none_iff _ _).mpr hout
    constructor
    · rw [applySplit_eq_none_iff]
      exact hn
    · unfold Split.applySplitY splitMask
      rw [hn]
      rfl
  · intro hy
    unfold Split.applySplitY splitMask
    cases hr : resolveCol s.split_feature m with
    | none => rfl
    | some j =>
      simp only [Option.map_some']
      have hne : ¬ (y.length = (X.map (s.rowLE j)).length) := by
        rw [List.length_map]
        exact hy
      rw [if_neg hne]

/-- Witness for C7: an out-of-bounds feature index and a mismatched `y`. -/
theorem applySplit_contract_violation_witness :
    (Split.applySplit ⟨2, 5⟩ 1 [[3]] = none ∧
      Split.applySplitY ⟨2, 5⟩ 1 [[3]] [10] = none) ∧
    Split.applySplitY ⟨0, 5⟩ 1 [[3]] [10, 20] = none :=
  ⟨(applySplit_contract_violation ⟨2, 5⟩ 1 [[3]] [10]).1 (by decide),
    (applySplit_contract_violation ⟨0, 5⟩ 1 [[3]] [10, 20]).2 (by decide)⟩

/-- C10: a negative `split_feature` `f` with `-m ≤ f ≤ -1` raises no error:
it partitions on column `m + f`, and an out-of-bounds error occurs exactly
when `f ≥ m` or `f < -m`. -/
theorem applySplit_negative_feature
    (f t g : Int) (m : Nat) (X : List (List Int))
    (h1 : -(m : Int) ≤ f) (h2 : f < 0) :
    Split.applySplit ⟨f, t⟩ m X = Split.applySplit ⟨(m : Int) + f, t⟩ m X ∧
    Split.applySplit ⟨f, t⟩ m X ≠ none ∧
    (Split.applySplit ⟨g, t⟩ m X = none ↔ ((m : Int) ≤ g ∨ g < -(m : Int))) := by
  refine ⟨?_, ?_, ?_⟩
  · unfold Split.applySplit splitMask
    rw [resolveCol_shift f m h1 h2]
    rfl
  · rw [Ne, applySplit_eq_none_iff, resolveCol_eq_none_iff]
    show ¬((m : Int) ≤ f ∨ f < -(m : Int))
    omega
  · rw [applySplit_eq_none_iff, resolveCol_eq_none_iff]

/-! Heap model of the call, for the frame property.  Each numpy operation
used by `_apply_split` (`<=` on a column, `~mask`, boolean-mask indexing of
`X` and `y`) returns a freshly allocated array; the source never writes into
an existing array.  The model makes this explicit: a heap is a list of
allocated arrays, a reference is an index into it, and each operation of
the source appends its freshly built result to the heap. -/

/-- One allocated array: a 2-D feature matrix, a 1-D target vector, or a
1-D boolean mask. -/
inductive Arr where
  | mat (rows : List (List Int))
  | vec (xs : List Int)
  | bmask (bs : List Bool)
deriving Repr, DecidableEq

/-- A heap of allocated arrays; a reference is an index into the list. -/
abbrev Heap := List Arr

/-- Read a reference that must point at a 2-D feature matrix; anything
else is a usage error (`none`). -/
def readMat (h : Heap) (r : Nat) : Option (List (List Int)) :=
  match List.get? h r with
  | some (Arr.mat X) => some X
  | _ => none

/-- Read a reference that must point at a 1-D target vector; anything
else is a usage error (`none`). -/
def readVec (h : Heap) (r : Nat) : Option (List Int) :=
  match List.get? h r with
  | some (Arr.vec xs) => some xs
  | _ => none

/-- Heap-level form of `Split._apply_split`: `xref` and the optional `yref`
are references to the argument arrays.  The call reads `X` (and `y`),
allocates the mask `split_filter`, its negation, and the output subsets, in
source order (every numpy operation the source uses builds a fresh array;
nothing is written in place), and returns the new heap together with the
references of the returned subsets.  `none` models a raised exception (bad
reference or dtype, out-of-bounds `split_feature`, or mask/`y` length
mismatch). -/
def Split.applySplitH (s : Split) (m : Nat) (h : Heap) (xref : Nat) (yref : Option Nat) :
    Option (Heap × List Nat) :=
  (readMat h xref).bind fun X =>
    (splitMask s m X).bind fun mask =>
      match yref with
      | none =>
          some (List.append h
                  [Arr.bmask mask, Arr.bmask (negMask mask),
                   Arr.mat (maskSelect mask X), Arr.mat (maskSelect (negMask mask) X)],
                [List.length h + 2, List.length h + 3])
      | some yr =>
          (readVec h yr).bind fun y =>
            if y.length = mask.length then
              some (List.append h
                      [Arr.bmask mask, Arr.bmask (negMask mask),
                       Arr.mat (maskSelect mask X), Arr.vec (maskSelect mask y),
                       Arr.mat (maskSelect (negMask mask) X),
                       Arr.vec (maskSelect (negMask mask) y)],
                    [List.length h + 2, List.length h + 3,
                     List.length h + 4, List.length h + 5])
            else none

/-- C8: `apply_split` mutates nothing: whenever the heap-level call
succeeds, every array allocated before the call is unchanged on the output
heap (in particular `X` and `y` are unchanged), and every returned subset
is a newly allocated array (its reference did not exist before the call).
The `Split` itself is passed by value and is unchanged by construction. -/
theorem applySplitH_no_mutation
    (s : Split) (m : Nat) (h h' : Heap) (xref : Nat) (yref : Option Nat) (out : List Nat)
    (hc : s.applySplitH m h xref yref = some (h', out)) :
    (∀ i, i < List.length h → List.get? h' i = List.get? h i) ∧
    (∀ a ∈ out, List.length h ≤ a) := by
  unfold Split.applySplitH at hc
  cases hX : readMat h xref with
  | none => rw [hX] at hc; simp at hc
  | some X =>
    rw [hX] at hc
    simp only [Option.some_bind] at hc
    cases hmask : splitMask s m X with
    | none => rw [hmask] at hc; simp at hc
    | some mask =>
      rw [hmask] at hc
      simp only [Option.some_bind] at hc
      cases yref with
      | none =>
        simp only [Option.some.injEq, Prod.mk.injEq] at hc
        obtain ⟨hh, hout⟩ := hc
        subst hh
        constructor
        · intro i hi
          exact List.get?_append hi
        · intro a ha
          rw [← hout] at ha
          simp only [List.mem_cons, List.not_mem_nil, or_false] at ha
          rcases ha with rfl | rfl <;> omega
      | some yr =>
        cases hY : readVec h yr with
        | none => simp [hY] at hc
        | some y =>
          simp only [hY, Option.some_bind] at hc
          split_ifs at hc with hlen
          simp only [Option.some.injEq, Prod.mk.injEq] at hc
          obtain ⟨hh, hout⟩ := hc
          subst hh
          constructor
          · intro i hi
            exact List.get?_append hi
          · intro a ha
            rw [← hout] at ha
            simp only [List.mem_cons, List.not_mem_nil, or_false] at ha
            rcases ha with rfl | rfl | rfl | rfl <;> omega

/-- Witness for C8: a two-cell heap holding `X = [[3],[5],[7]]` and
`y = [10,20,30]`, split by `Split(0, 5)`. -/
theorem applySplitH_no_mutation_witness :
    (∀ i, i < List.length [Arr.mat [[3],[5],[7]], Arr.vec [10,20,30]] →
      List.get? (List.append [Arr.mat [[3],[5],[7]], Arr.vec [10,20,30]]
          [Arr.bmask [true, true, false], Arr.bmask [false, false, true],
           Arr.mat [[3],[5]], Arr.vec [10,20], Arr.mat [[7]], Arr.vec [30]]) i
        = List.get? [Arr.mat [[3],[5],[7]], Arr.vec [10,20,30]] i) ∧
    (∀ a ∈ [4, 5, 6, 7],
      List.length [Arr.mat [[3],[5],[7]], Arr.vec [10,20,30]] ≤ a) :=
  applySplitH_no_mutation ⟨0, 5⟩ 1 [Arr.mat [[3],[5],[7]], Arr.vec [10,20,30]]
    (List.append [Arr.mat [[3],[5],[7]], Arr.vec [10,20,30]]
      [Arr.bmask [true, true, false], Arr.bmask [false, false, true],
       Arr.mat [[3],[5]], Arr.vec [10,20], Arr.mat [[7]], Arr.vec [30]])
    0 (some 1) [4, 5, 6, 7] (by decide)

/-- A leaf node: no children, no split, no estimator. -/
def leafNode : TreeNode := TreeNode.mk 0 none none none

/-- A node built, exactly as `TreeNode.__init__` permits, with a
single-element children list — the constructor performs no validation. -/
def oneChildNode : TreeNode := TreeNode.mk 0 none (some [leafNode]) none

/-- Counterexample to C9: `TreeNode.__init__` accepts a one-element
children list, so a constructed node can hold a non-pair, non-empty
children collection: `oneChildNode` has children present with one element,
not two. -/
theorem treeNode_one_child_constructible :
    oneChildNode.children = some [leafNode] ∧
    ([leafNode] : List TreeNode).length = 1 := ⟨rfl, rfl⟩

/-- C9 (amended): the constructor stores `children` verbatim and enforces
nothing, so the pair shape holds exactly for the nodes whose caller passes
`None` or a two-element list — as the source docstring advises ("Should
have 2 or 0 elements or be None") — not for every constructible node. -/
theorem treeNode_children_pair_iff_caller_conforms
    (d : Int) (e : Option Nat) (c : Option (List TreeNode)) (sp : Option Split)
    (hc : c = none ∨ ∃ a b : TreeNode, c = some [a, b]) :
    (TreeNode.mk d e c sp).children = c ∧
    ((TreeNode.mk d e c sp).children = none ∨
      ∃ a b : TreeNode, (TreeNode.mk d e c sp).children = some [a, b]) :=
  ⟨rfl, hc⟩

/-- Witness for the amended C9 at a two-children internal node. -/
theorem treeNode_children_pair_witness :
    (TreeNode.mk 1 none (some [TreeNode.mk 0 none none none,
        TreeNode.mk 0 none none none]) (some ⟨0, 0⟩)).children
      = some [TreeNode.mk 0 none none none, TreeNode.mk 0 none none none] ∧
    ((TreeNode.mk 1 none (some [TreeNode.mk 0 none none none,
        TreeNode.mk 0 none none none]) (some ⟨0, 0⟩)).children = none ∨
      ∃ a b : TreeNode, (TreeNode.mk 1 none (some [TreeNode.mk 0 none none none,
        TreeNode.mk 0 none none none]) (some ⟨0, 0⟩)).children = some [a, b]) :=
  treeNode_children_pair_iff_caller_conforms 1 none
    (some [TreeNode.mk 0 none none none, TreeNode.mk 0 none none none]) (some ⟨0, 0⟩)
    (Or.inr ⟨TreeNode.mk 0 none none none, TreeNode.mk 0 none none none, rfl⟩)

/-- Witness for C10 at `f = -1` on a two-column matrix. -/
theorem applySplit_negative_feature_witness :
    Split.applySplit ⟨-1, 5⟩ 2 [[3, 9], [5, 2], [7, 0]]
        = Split.applySplit ⟨(2 : Int) + -1, 5⟩ 2 [[3, 9], [5, 2], [7, 0]] ∧
    Split.applySplit ⟨-1, 5⟩ 2 [[3, 9], [5, 2], [7, 0]] ≠ none ∧
    (Split.applySplit ⟨2, 5⟩ 2 [[3, 9], [5, 2], [7, 0]] = none
      ↔ ((2 : Int) ≤ 2 ∨ (2 : Int) < -(2 : Int))) :=
  applySplit_negative_feature (-1) 5 2 2 [[3, 9], [5, 2], [7, 0]] (by decide) (by decide)

end ModelTrees
